import Mathlib

/-!
# i2c_imu_node: the polling publisher

A shallow embedding of `src/i2c_imu_node.cpp` (class `I2cImu`, its constructor,
`I2cImu::update` and `main`).

Modelling conventions.

* C++ `double` / `RTFLOAT` values are exact rationals (`ℚ`): rounding is not
  modelled, and a division is the rational division of the same operands. A
  division by zero is `0` in `ℚ` where IEEE arithmetic has an infinity.
* `ros::Time` and `ros::Duration` are seconds in `ℚ`. The constructor
  `ros::Duration d(x)` keeps a whole number of nanoseconds: `Duration x` is `x`
  rounded to the nearest nanosecond, as roscpp does (`floor` for the seconds,
  `round` for the rest). Its signed 32-bit range of seconds is not modelled;
  the statements about the publish interval assume a period within it.
* The parameter server, the RTIMULib driver, `ros::ok()` and the clock
  `ros::Time::now()` are inputs: absent parameters are `none`, and the clock is
  an oracle indexed by the loop iteration and by the number of earlier calls,
  so that it can describe a clock read call by call as well as a simulated
  clock that is stepped once per iteration.
* `ROS_BREAK()` and the uncaught exception of the constructor end the process.
* Message fields the node never writes are left out of the message records.
* The loop may run forever; `loop` and `I2cImu.update` return the records of
  its first iterations, so a statement about a run holds for every prefix.
-/

set_option linter.dupNamespace false

namespace I2cImuNode

/-! ## Constants -/

/-- Gravity constant, `#define G_2_MPSS 9.80665`. -/
def G_2_MPSS : ℚ := 9.80665

/-- Micro-tesla per tesla, `#define uT_2_T 1000000`. -/
def uT_2_T : ℚ := 1000000

/-- The constructor `ros::Duration(double)`: the duration of `sec` seconds as
roscpp stores it, a whole number of nanoseconds, the nearest to `sec` (a half
is rounded up); the result is again in seconds. -/
def Duration (sec : ℚ) : ℚ :=
  ((Int.floor (sec * 1000000000 + 1 / 2) : ℤ) : ℚ) / 1000000000

/-! ## Driver data (RTIMULib) -/

/-- RTIMULib vector with accessors `x()`, `y()`, `z()`. -/
structure RTVector3 where
  x : ℚ
  y : ℚ
  z : ℚ
  deriving DecidableEq, Repr

/-- RTIMULib quaternion with accessors `scalar()`, `x()`, `y()`, `z()`. -/
structure RTQuaternion where
  scalar : ℚ
  x : ℚ
  y : ℚ
  z : ℚ
  deriving DecidableEq, Repr

/-- The fields of `RTIMU_DATA` that `update` reads. -/
structure RTIMU_DATA where
  fusionPose : RTVector3
  fusionQPose : RTQuaternion
  gyro : RTVector3
  accel : RTVector3
  compass : RTVector3
  compassValid : Bool
  deriving DecidableEq, Repr

/-- The device handle returned by `RTIMU::createIMU`: the result of `IMUInit()`
and of `IMUGetPollInterval()` (an `int`, milliseconds). -/
structure RTIMU where
  IMUInit : Bool
  IMUGetPollInterval : Int
  deriving DecidableEq, Repr

/-! ## Messages -/

/-- A `geometry_msgs::Vector3`. -/
structure Vector3 where
  x : ℚ
  y : ℚ
  z : ℚ
  deriving DecidableEq, Repr

/-- A `geometry_msgs::Quaternion`. -/
structure Quaternion where
  x : ℚ
  y : ℚ
  z : ℚ
  w : ℚ
  deriving DecidableEq, Repr

/-- A `std_msgs::Header` (stamp and frame id). -/
structure Header where
  stamp : ℚ
  frame_id : String
  deriving DecidableEq, Repr

/-- A `sensor_msgs::Imu`; the covariances are the flattened 3x3 arrays. -/
structure Imu where
  header : Header
  orientation : Quaternion
  orientation_covariance : List ℚ
  angular_velocity : Vector3
  angular_velocity_covariance : List ℚ
  linear_acceleration : Vector3
  linear_acceleration_covariance : List ℚ
  deriving DecidableEq, Repr

/-- A `sensor_msgs::MagneticField` (header and field vector). -/
structure MagneticField where
  header : Header
  magnetic_field : Vector3
  deriving DecidableEq, Repr

/-- A default-constructed `sensor_msgs::Imu`: every number is zero, the frame id
is empty and each covariance array holds nine zeros. -/
def Imu.default : Imu :=
  { header := { stamp := 0, frame_id := "" }
    orientation := { x := 0, y := 0, z := 0, w := 0 }
    orientation_covariance := List.replicate 9 0
    angular_velocity := { x := 0, y := 0, z := 0 }
    angular_velocity_covariance := List.replicate 9 0
    linear_acceleration := { x := 0, y := 0, z := 0 }
    linear_acceleration_covariance := List.replicate 9 0 }

/-- A message handed to one of the three publishers. -/
inductive Msg where
  | data (m : Imu)
  | mag (m : MagneticField)
  | euler (m : Vector3)
  deriving DecidableEq, Repr

/-- An advertised `ros::Publisher`; a default-constructed one (which compares
equal to `NULL`) is `none` in the fields of `I2cImu`. -/
structure Publisher where
  topic : String
  deriving DecidableEq, Repr

/-! ## The node -/

/-- The private parameters of the node; `none` is a parameter that is not set
(`hasParam` / `getParam` return `false`, `param` takes its default). -/
structure Params where
  settings_directory : Option String
  settings_filename : Option String
  frame_id : Option String
  publish_magnetometer : Option Bool
  publish_euler : Option Bool
  orientation_covariance : Option (List ℚ)
  angular_velocity_covariance : Option (List ℚ)
  linear_acceleration_covariance : Option (List ℚ)
  magnetic_declination : Option ℚ
  rate_hz : Option ℚ
  deriving DecidableEq, Repr

/-- The members of class `I2cImu` that the constructor and `update` use. -/
structure I2cImu where
  imu_msg : Imu
  imu_pub_ : Option Publisher
  magnetometer_pub_ : Option Publisher
  euler_pub_ : Option Publisher
  imu_frame_id_ : String
  rate_ : ℚ
  declination_radians_ : ℚ
  imu_ : RTIMU
  deriving DecidableEq, Repr

/-- The three ways the constructor ends the process. -/
inductive Fatal where
  | settingsDirectoryNotSet
  | failedToOpenDevice
  | failedToInitIMU
  deriving DecidableEq, Repr

/-- The copy loop `for (int i = 0; i < 9; i++) field[i] = param[i];`. -/
def copy9 (field param : List ℚ) : List ℚ :=
  (List.range 9).foldl (fun acc i => acc.set i (param.getD i 0)) field

/-- One covariance block of the constructor:
`if (getParam(name, v) && v.size() == 9) { copy }`. -/
def loadCovariance (param : Option (List ℚ)) (field : List ℚ) : List ℚ :=
  match param with
  | some v => if v.length = 9 then copy9 field v else field
  | none => field

/-- The constructor `I2cImu::I2cImu()`. The driver is given by the result of
`RTIMU::createIMU` (`none` for a null pointer). The uncaught exception and the
two `ROS_BREAK()` calls end the process and are the three `Fatal` results. -/
def I2cImu.I2cImu (p : Params) (createIMU : Option RTIMU) : Except Fatal I2cImu :=
  match p.settings_directory with
  | none => .error .settingsDirectoryNotSet
  | some _ =>
    let imu_frame_id_ := p.frame_id.getD "imu_link"
    let imu_pub_ : Option Publisher := some { topic := "data" }
    let magnetometer := p.publish_magnetometer.getD false
    let magnetometer_pub_ : Option Publisher :=
      if magnetometer then some { topic := "mag" } else none
    let euler := p.publish_euler.getD false
    let euler_pub_ : Option Publisher :=
      if euler then some { topic := "euler" } else none
    let imu_msg := Imu.default
    let imu_msg := { imu_msg with
      orientation_covariance :=
        loadCovariance p.orientation_covariance imu_msg.orientation_covariance }
    let imu_msg := { imu_msg with
      angular_velocity_covariance :=
        loadCovariance p.angular_velocity_covariance imu_msg.angular_velocity_covariance }
    let imu_msg := { imu_msg with
      linear_acceleration_covariance :=
        loadCovariance p.linear_acceleration_covariance
          imu_msg.linear_acceleration_covariance }
    let declination_radians_ := p.magnetic_declination.getD 0
    match createIMU with
    | none => .error .failedToOpenDevice
    | some imu_ =>
      if !imu_.IMUInit then .error .failedToInitIMU
      else
        let rate_ := p.rate_hz.getD (1 / ((imu_.IMUGetPollInterval : ℚ) / 1000))
        .ok { imu_msg := imu_msg
              imu_pub_ := imu_pub_
              magnetometer_pub_ := magnetometer_pub_
              euler_pub_ := euler_pub_
              imu_frame_id_ := imu_frame_id_
              rate_ := rate_
              declination_radians_ := declination_radians_
              imu_ := imu_ }

/-! ## The polling loop -/

/-- What the loop observes from outside. Iterations are numbered from `1`;
iteration `0` is the code of `update` before the loop.
* `ok i`: the value of `ros::ok()` at the head of iteration `i`;
* `IMURead i`: `none` when `IMURead()` returns `false` in iteration `i`, else
  the record returned by `getIMUData()`;
* `now i k`: the value of a call of `ros::Time::now()` made in iteration `i`
  after `k` earlier calls (counted from the start of `update`). -/
structure World where
  ok : Nat → Bool
  IMURead : Nat → Option RTIMU_DATA
  now : Nat → Nat → ℚ

/-- The variables of `update` that live across iterations: the object, the
anchor `begin`, and the number of clock calls made so far. -/
structure LoopState where
  self : I2cImu
  begin : ℚ
  calls : Nat
  deriving DecidableEq, Repr

/-- The record of one loop iteration: its number, the state on entry, the clock
value compared with the anchor on line 178 (when that line ran), the messages
published in order, and the state on exit. -/
structure Step where
  iter : Nat
  pre : LoopState
  compared : Option ℚ
  out : List Msg
  post : LoopState
  deriving DecidableEq, Repr

/-- The body of the `while` loop of `update` (lines 156-209) in iteration `i`,
with `d` the constant `ros::Duration d(1.0/rate_)` of line 151. -/
def iteration (W : World) (d : ℚ) (i : Nat) (s : LoopState) : Step :=
  match W.IMURead i with
  | none => { iter := i, pre := s, compared := none, out := [], post := s }
  | some imuData =>
    let current_time := W.now i s.calls
    let imu_msg := s.self.imu_msg
    let imu_msg := { imu_msg with
      header := { stamp := current_time, frame_id := s.self.imu_frame_id_ } }
    let imu_msg := { imu_msg with
      orientation := { x := imuData.fusionQPose.x
                       y := imuData.fusionQPose.y
                       z := imuData.fusionQPose.z
                       w := imuData.fusionQPose.scalar } }
    let imu_msg := { imu_msg with
      angular_velocity := { x := imuData.gyro.x
                            y := -imuData.gyro.y
                            z := -imuData.gyro.z } }
    let imu_msg := { imu_msg with
      linear_acceleration := { x := -imuData.accel.x * G_2_MPSS
                               y := imuData.accel.y * G_2_MPSS
                               z := imuData.accel.z * G_2_MPSS } }
    let self := { s.self with imu_msg := imu_msg }
    let t := W.now i (s.calls + 1)
    if t - s.begin ≥ d then
      let out : List Msg := [Msg.data imu_msg]
      let magOn := self.magnetometer_pub_.isSome && imuData.compassValid
      let out : List Msg :=
        if magOn then
          out ++ [Msg.mag
            { header := { frame_id := self.imu_frame_id_, stamp := W.now i (s.calls + 2) }
              magnetic_field := { x := imuData.compass.x / uT_2_T
                                  y := imuData.compass.y / uT_2_T
                                  z := imuData.compass.z / uT_2_T } }]
        else out
      let calls := if magOn then s.calls + 3 else s.calls + 2
      let out : List Msg :=
        if self.euler_pub_.isSome then
          let msg : Vector3 :=
            { x := imuData.fusionPose.x, y := imuData.fusionPose.y, z := -imuData.fusionPose.z }
          let msg := { msg with z := (-imuData.fusionPose.z) - self.declination_radians_ }
          out ++ [Msg.euler msg]
        else out
      { iter := i, pre := s, compared := some t, out := out
        post := { self := self, begin := W.now i calls, calls := calls + 1 } }
    else
      { iter := i, pre := s, compared := some t, out := []
        post := { self := self, begin := s.begin, calls := s.calls + 2 } }

/-- The `while (ros::ok())` loop, for at most `fuel` iterations starting with
iteration `i` in state `s`: the records of the iterations that ran. -/
def loop (W : World) (d : ℚ) : Nat → Nat → LoopState → List Step
  | 0, _, _ => []
  | fuel + 1, i, s =>
    if W.ok i then
      let st := iteration W d i s
      st :: loop W d fuel (i + 1) st.post
    else []

/-- The first `fuel` iterations of `I2cImu::update()`. -/
def I2cImu.update (self : I2cImuNode.I2cImu) (W : World) (fuel : Nat) : List Step :=
  let d : ℚ := Duration (1 / self.rate_)
  let begin := W.now 0 0
  loop W d fuel 1 { self := self, begin := begin, calls := 1 }

/-- The function `main`: construct the node, then run `update`. A fatal
constructor result ends the process before `update` is called. -/
def main (p : Params) (createIMU : Option RTIMU) (W : World) (fuel : Nat) :
    Except Fatal (List Step) :=
  match I2cImu.I2cImu p createIMU with
  | .error e => .error e
  | .ok i2c_imu => .ok (i2c_imu.update W fuel)

/-! ## Views of a run -/

/-- Two objects that differ at most in the buffered message `imu_msg`. -/
def I2cImu.sameConfig (a b : I2cImuNode.I2cImu) : Prop :=
  { a with imu_msg := b.imu_msg } = b

/-- Whether an iteration handed a primary message to `imu_pub_`. -/
def Step.publishedData (st : Step) : Prop := ∃ m, Msg.data m ∈ st.out

/-- Every message published during a run, oldest first. -/
def published (tr : List Step) : List Msg :=
  (tr.map Step.out).flatten

/-- The messages published by an execution of `main`, none when it was ended. -/
def publishedBy : Except Fatal (List Step) → List Msg
  | .error _ => []
  | .ok tr => published tr

/-- The number of loop iterations entered by an execution of `main`. -/
def iterationsOf : Except Fatal (List Step) → Nat
  | .error _ => 0
  | .ok tr => tr.length

/-- The header stamp of a primary message, nothing for the other messages. -/
def Msg.dataStamp : Msg → Option ℚ
  | .data m => some m.header.stamp
  | _ => none

/-- The header stamp of a magnetic-field message. -/
def Msg.magStamp : Msg → Option ℚ
  | .mag m => some m.header.stamp
  | _ => none

/-- Whether a message is a Euler vector. -/
def Msg.isEuler : Msg → Bool
  | .euler _ => true
  | _ => false

/-- For an iteration that published a primary message: the header stamp of
that message and the clock value at which line 178 decided to publish. -/
def Step.pub (st : Step) : Option (ℚ × ℚ) :=
  match st.out.findSome? Msg.dataStamp, st.compared with
  | some stamp, some t => some (stamp, t)
  | _, _ => none

/-- Stamp and decision instant of each published primary message, oldest first. -/
def pubs (tr : List Step) : List (ℚ × ℚ) := tr.filterMap Step.pub

/-- The decision instants of the published primary messages, oldest first. -/
def decisions (tr : List Step) : List ℚ := (pubs tr).map Prod.snd

/-- The header stamps of the published primary messages, oldest first. -/
def dataStamps (tr : List Step) : List ℚ := (published tr).filterMap Msg.dataStamp

/-- The header stamps of the published magnetic-field messages, oldest first. -/
def magStamps (tr : List Step) : List ℚ := (published tr).filterMap Msg.magStamp

/-- The number of published Euler messages. -/
def eulerCount (tr : List Step) : Nat := ((published tr).filter Msg.isEuler).length

/-- The successive values of `ros::Time::now()` never decrease: a call made in
a later iteration, after more calls, returns at least as much. Along a run both
indices only grow, so the values read are non-decreasing; and a clock given by
its successive readings `r 0 ≤ r 1 ≤ ...` is `now := fun _ k => r k`. -/
def World.clockMonotone (W : World) : Prop :=
  ∀ i k i' k', i ≤ i' → k ≤ k' → W.now i k ≤ W.now i' k'

/-! ## Concrete inputs -/

/-- A fused sample with a valid compass reading. -/
def sampleData : RTIMU_DATA :=
  { fusionPose := { x := 1, y := 2, z := 3 }
    fusionQPose := { scalar := 1, x := 0, y := 0, z := 0 }
    gyro := { x := 1, y := 2, z := 3 }
    accel := { x := 1, y := 0, z := 1 }
    compass := { x := 20, y := -5, z := 40 }
    compassValid := true }

/-- A device that initialises and polls every 4 ms. -/
def sampleIMU : RTIMU := { IMUInit := true, IMUGetPollInterval := 4 }

/-- A parameter set with both optional outputs enabled and a rate of 10 Hz. -/
def sampleParams : Params :=
  { settings_directory := some "/etc/imu"
    settings_filename := none
    frame_id := none
    publish_magnetometer := some true
    publish_euler := some true
    orientation_covariance := some [1, 0, 0, 0, 2, 0, 0, 0, 3]
    angular_velocity_covariance := some [1, 2]
    linear_acceleration_covariance := none
    magnetic_declination := none
    rate_hz := some 10 }

/-- The object the constructor builds from `sampleParams` and `sampleIMU`. -/
def sampleNode : I2cImu :=
  { imu_msg := { Imu.default with orientation_covariance := [1, 0, 0, 0, 2, 0, 0, 0, 3] }
    imu_pub_ := some { topic := "data" }
    magnetometer_pub_ := some { topic := "mag" }
    euler_pub_ := some { topic := "euler" }
    imu_frame_id_ := "imu_link"
    rate_ := 10
    declination_radians_ := 0
    imu_ := sampleIMU }

/-- The state in which `update` enters its loop on `sampleNode` when the clock
starts at zero. -/
def sampleStart : LoopState := { self := sampleNode, begin := 0, calls := 1 }

/-- The magnetic-field message for `sampleData` stamped `1` in frame `imu_link`. -/
def sampleMag : MagneticField :=
  { header := { stamp := 1, frame_id := "imu_link" }
    magnetic_field := { x := 20 / 1000000, y := -5 / 1000000, z := 40 / 1000000 } }

/-- A world in which every read succeeds with `sampleData` and the clock shows
`t0 + i * δ` throughout iteration `i`. -/
def steadyWorld (t0 δ : ℚ) : World :=
  { ok := fun _ => true
    IMURead := fun _ => some sampleData
    now := fun i _ => t0 + i * δ }

/-- A world in which every read succeeds and the clock depends on the number of
earlier calls only: `0` at the start of `update`, `1` for the next four calls,
`1.9` for the stamp of the second iteration and `2` from then on. -/
def jumpWorld : World :=
  { ok := fun _ => true
    IMURead := fun _ => some sampleData
    now := fun _ k => if k = 0 then 0 else if k ≤ 4 then 1 else if k = 5 then 19 / 10 else 2 }

/-- The object `sampleNode` with a rate of 1 Hz. -/
def slowNode : I2cImu := { sampleNode with rate_ := 1 }

/-- The object the constructor builds from `thirdParams` and `sampleIMU`. -/
def thirdNode : I2cImu := { sampleNode with rate_ := 3 }

/-- The duration `ros::Duration(1.0/3)`: 333333333 ns, in seconds. -/
def thirdStep : ℚ := 333333333 / 1000000000

/-- A whole number of nanoseconds is kept as it is. -/
theorem Duration_whole (n : ℤ) :
    Duration ((n : ℚ) / 1000000000) = (n : ℚ) / 1000000000 := by
  unfold Duration
  have h : (n : ℚ) / 1000000000 * 1000000000 + 1 / 2 = (n : ℚ) + 1 / 2 := by
    field_simp
  rw [h]
  have hf : Int.floor ((n : ℚ) + 1 / 2) = n := by
    rw [Int.floor_eq_iff]
    constructor <;> norm_num
  rw [hf]

/-- A duration is within half a nanosecond of the seconds it was built from. -/
theorem Duration_close (x : ℚ) :
    x - 1 / 2000000000 < Duration x ∧ Duration x ≤ x + 1 / 2000000000 := by
  unfold Duration
  have h1 := Int.floor_le (x * 1000000000 + 1 / 2)
  have h2 := Int.lt_floor_add_one (x * 1000000000 + 1 / 2)
  constructor
  · rw [lt_div_iff₀ (by norm_num)]
    linarith
  · rw [div_le_iff₀ (by norm_num)]
    linarith

theorem Duration_nonneg (x : ℚ) (hx : 0 ≤ x) : 0 ≤ Duration x := by
  unfold Duration
  apply div_nonneg _ (by norm_num)
  have h : (0 : ℤ) ≤ Int.floor (x * 1000000000 + 1 / 2) :=
    Int.floor_nonneg.mpr (by positivity)
  exact_mod_cast h

/-- A whole number of milliseconds is kept as it is. -/
theorem Duration_millis (n : ℤ) : Duration ((n : ℚ) / 1000) = (n : ℚ) / 1000 := by
  have h := Duration_whole (n * 1000000)
  have e : (((n * 1000000 : ℤ)) : ℚ) / 1000000000 = (n : ℚ) / 1000 := by
    push_cast
    field_simp
    ring
  rw [e] at h
  exact h

theorem Duration_tenth : Duration (1 / 10) = 1 / 10 := by
  have h := Duration_millis 100
  norm_num at h
  exact h

theorem update_eq (self : I2cImu) (W : World) (fuel : Nat) :
    self.update W fuel = loop W (Duration (1 / self.rate_)) fuel 1
      { self := self, begin := W.now 0 0, calls := 1 } := rfl

theorem copy9_eq (field v : List ℚ) (hf : field.length = 9) (hv : v.length = 9) :
    copy9 field v = v := by
  match field, v, hf, hv with
  | [_, _, _, _, _, _, _, _, _], [_, _, _, _, _, _, _, _, _], _, _ => rfl

theorem loadCovariance_eq (v : List ℚ) (hv : v.length = 9) :
    loadCovariance (some v) (List.replicate 9 0) = v := by
  simp only [loadCovariance, hv, if_true]
  exact copy9_eq _ _ (by simp) hv

theorem loadCovariance_default (param : Option (List ℚ)) (field : List ℚ)
    (h : ∀ v, param = some v → v.length ≠ 9) : loadCovariance param field = field := by
  cases param with
  | none => rfl
  | some v => simp [loadCovariance, h v rfl]

theorem sameConfig_refl (a : I2cImu) : a.sameConfig a := rfl

theorem sameConfig_trans {a b c : I2cImu} (h₁ : a.sameConfig b) (h₂ : b.sameConfig c) :
    a.sameConfig c := by
  unfold I2cImu.sameConfig at *
  rw [← h₂, ← h₁]

theorem iteration_iter (W : World) (d : ℚ) (i : Nat) (s : LoopState) :
    (iteration W d i s).iter = i := by
  unfold iteration
  split
  · rfl
  · dsimp only
    split <;> rfl

theorem iteration_pre (W : World) (d : ℚ) (i : Nat) (s : LoopState) :
    (iteration W d i s).pre = s := by
  unfold iteration
  split
  · rfl
  · dsimp only
    split <;> rfl

theorem iteration_sameConfig (W : World) (d : ℚ) (i : Nat) (s : LoopState) :
    s.self.sameConfig (iteration W d i s).post.self := by
  unfold iteration
  split
  · rfl
  · dsimp only
    split <;> rfl

/-- Every record of a run is the loop body applied to its own entry state, in
an iteration for which `ros::ok()` held, on an object with the configuration
of the start. -/
theorem loop_mem (W : World) (d : ℚ) :
    ∀ (fuel i : Nat) (s : LoopState) (st : Step), st ∈ loop W d fuel i s →
      st = iteration W d st.iter st.pre ∧ i ≤ st.iter ∧
        s.self.sameConfig st.pre.self ∧ W.ok st.iter = true := by
  intro fuel
  induction fuel with
  | zero => intro i s st h; simp [loop] at h
  | succ n ih =>
    intro i s st h
    unfold loop at h
    split at h
    · rename_i hok
      rcases List.mem_cons.mp h with h | h
      · subst h
        rw [iteration_iter, iteration_pre]
        exact ⟨rfl, le_rfl, sameConfig_refl _, hok⟩
      · obtain ⟨h1, h2, h3, h4⟩ := ih _ _ _ h
        exact ⟨h1, by omega, sameConfig_trans (iteration_sameConfig W d i s) h3, h4⟩
    · simp at h

/-- What a successfully constructed object holds. -/
theorem ctor_ok (p : Params) (c : Option RTIMU) (self : I2cImu)
    (h : I2cImu.I2cImu p c = .ok self) :
    ∃ dir imu, p.settings_directory = some dir ∧ c = some imu ∧ imu.IMUInit = true ∧
      self.imu_ = imu ∧
      self.imu_frame_id_ = p.frame_id.getD "imu_link" ∧
      self.magnetometer_pub_.isSome = p.publish_magnetometer.getD false ∧
      self.euler_pub_.isSome = p.publish_euler.getD false ∧
      self.declination_radians_ = p.magnetic_declination.getD 0 ∧
      self.rate_ = p.rate_hz.getD (1 / ((imu.IMUGetPollInterval : ℚ) / 1000)) ∧
      self.imu_msg.orientation_covariance =
        loadCovariance p.orientation_covariance (List.replicate 9 0) ∧
      self.imu_msg.angular_velocity_covariance =
        loadCovariance p.angular_velocity_covariance (List.replicate 9 0) ∧
      self.imu_msg.linear_acceleration_covariance =
        loadCovariance p.linear_acceleration_covariance (List.replicate 9 0) := by
  unfold I2cImu.I2cImu at h
  cases hd : p.settings_directory with
  | none => simp [hd] at h
  | some dir =>
    cases c with
    | none => simp [hd] at h
    | some imu =>
      cases hi : imu.IMUInit with
      | false => simp [hd, hi] at h
      | true =>
        simp only [hd, hi, Bool.not_true, Bool.false_eq_true, if_false, Except.ok.injEq] at h
        subst h
        refine ⟨dir, imu, rfl, rfl, hi, rfl, rfl, ?_, ?_, rfl, rfl, rfl, rfl, rfl⟩
        · cases p.publish_magnetometer.getD false <;> simp
        · cases p.publish_euler.getD false <;> simp

theorem sameConfig_fields {a b : I2cImu} (h : a.sameConfig b) :
    b.magnetometer_pub_ = a.magnetometer_pub_ ∧ b.euler_pub_ = a.euler_pub_ ∧
      b.imu_frame_id_ = a.imu_frame_id_ ∧ b.rate_ = a.rate_ ∧
      b.declination_radians_ = a.declination_radians_ := by
  unfold I2cImu.sameConfig at h
  rw [← h]
  exact ⟨rfl, rfl, rfl, rfl, rfl⟩

theorem sampleNode_ok : I2cImu.I2cImu sampleParams (some sampleIMU) = .ok sampleNode := by
  rfl

/-- The buffered message after a successful read. -/
theorem iteration_imu_msg (W : World) (d : ℚ) (i : Nat) (s : LoopState)
    (imuData : RTIMU_DATA) (hread : W.IMURead i = some imuData) :
    (iteration W d i s).post.self.imu_msg =
      { s.self.imu_msg with
        header := { stamp := W.now i s.calls, frame_id := s.self.imu_frame_id_ }
        orientation := { x := imuData.fusionQPose.x, y := imuData.fusionQPose.y,
                         z := imuData.fusionQPose.z, w := imuData.fusionQPose.scalar }
        angular_velocity := { x := imuData.gyro.x, y := -imuData.gyro.y,
                              z := -imuData.gyro.z }
        linear_acceleration := { x := -imuData.accel.x * G_2_MPSS
                                 y := imuData.accel.y * G_2_MPSS
                                 z := imuData.accel.z * G_2_MPSS } } := by
  unfold iteration
  simp only [hread]
  split <;> rfl

/-- A published primary message is the buffered message. -/
theorem iteration_data_mem (W : World) (d : ℚ) (i : Nat) (s : LoopState) (m : Imu)
    (hm : Msg.data m ∈ (iteration W d i s).out) :
    m = (iteration W d i s).post.self.imu_msg := by
  unfold iteration at hm ⊢
  cases hr : W.IMURead i with
  | none => simp [hr] at hm
  | some imuData =>
    simp only [hr] at hm ⊢
    by_cases hg : W.now i (s.calls + 1) - s.begin ≥ d
    · simp only [hg, if_true] at hm ⊢
      split at hm <;> split at hm <;>
        simp only [List.mem_append, List.mem_singleton, List.mem_cons, List.not_mem_nil,
          or_false, false_or, Msg.data.injEq, reduceCtorEq] at hm <;> exact hm
    · simp [hg] at hm

/-- The Euler and magnetic-field messages an iteration can publish. -/
theorem iteration_secondary_mem (W : World) (d : ℚ) (i : Nat) (s : LoopState)
    (imuData : RTIMU_DATA) (hread : W.IMURead i = some imuData) :
    (∀ v, Msg.euler v ∈ (iteration W d i s).out →
      v = { x := imuData.fusionPose.x, y := imuData.fusionPose.y,
            z := -imuData.fusionPose.z - s.self.declination_radians_ }) ∧
    (∀ m, Msg.mag m ∈ (iteration W d i s).out →
      m = { header := { stamp := W.now i (s.calls + 2), frame_id := s.self.imu_frame_id_ }
            magnetic_field := { x := imuData.compass.x / uT_2_T
                                y := imuData.compass.y / uT_2_T
                                z := imuData.compass.z / uT_2_T } }) := by
  unfold iteration
  simp only [hread]
  by_cases hg : W.now i (s.calls + 1) - s.begin ≥ d
  · simp only [hg, if_true]
    constructor <;> intro m hm <;> split at hm <;> split at hm <;>
      simp only [List.mem_append, List.mem_singleton, List.mem_cons, List.not_mem_nil,
        or_false, false_or, or_self, Msg.euler.injEq, Msg.mag.injEq, reduceCtorEq] at hm <;>
      try exact hm
  · simp [hg]

/-- The two ways an iteration can end: without a primary message, the anchor
kept; or with one, stamped by the first clock call of the iteration, decided by
the second at least `d` past the anchor, and the anchor reset to a later call. -/
theorem iteration_pub_cases (W : World) (d : ℚ) (i : Nat) (s : LoopState) :
    ((iteration W d i s).pub = none ∧ (iteration W d i s).post.begin = s.begin ∧
      s.calls ≤ (iteration W d i s).post.calls ∧
      (iteration W d i s).out = []) ∨
    (∃ k, (iteration W d i s).pub = some (W.now i s.calls, W.now i (s.calls + 1)) ∧
      (iteration W d i s).compared = some (W.now i (s.calls + 1)) ∧
      s.begin + d ≤ W.now i (s.calls + 1) ∧ s.calls + 1 < k ∧
      (iteration W d i s).post.begin = W.now i k ∧
      (iteration W d i s).post.calls = k + 1 ∧
      (iteration W d i s).out.filterMap Msg.dataStamp = [W.now i s.calls]) := by
  unfold iteration
  cases hr : W.IMURead i with
  | none => left; simp [Step.pub]
  | some imuData =>
    dsimp only
    by_cases hg : W.now i (s.calls + 1) - s.begin ≥ d
    · right
      rw [if_pos hg]
      have hg' : s.begin + d ≤ W.now i (s.calls + 1) := by linarith
      cases hm : (s.self.magnetometer_pub_.isSome && imuData.compassValid) <;>
        cases he : s.self.euler_pub_.isSome
      · refine ⟨s.calls + 2, ?_, ?_, hg', by omega, ?_, ?_, ?_⟩ <;>
          simp [Step.pub, Msg.dataStamp]
      · refine ⟨s.calls + 2, ?_, ?_, hg', by omega, ?_, ?_, ?_⟩ <;>
          simp [Step.pub, Msg.dataStamp]
      · refine ⟨s.calls + 3, ?_, ?_, hg', by omega, ?_, ?_, ?_⟩ <;>
          simp [Step.pub, Msg.dataStamp]
      · refine ⟨s.calls + 3, ?_, ?_, hg', by omega, ?_, ?_, ?_⟩ <;>
          simp [Step.pub, Msg.dataStamp]
    · left
      simp [hg, Step.pub]

/-- The loop invariant behind the rate limit. If the anchor is an earlier clock
value, then every published primary message of the run is stamped no earlier
than the anchor and decided at least `d` past it, and between consecutive
publications the stamps do not decrease while the decision instants advance by
at least `d`. -/
theorem loop_pubs (W : World) (d : ℚ) (hd : 0 ≤ d) (hmono : W.clockMonotone) :
    ∀ (fuel i : Nat) (s : LoopState),
      (∃ i0 k0, i0 ≤ i ∧ k0 ≤ s.calls ∧ s.begin = W.now i0 k0) →
      (∀ a ∈ pubs (loop W d fuel i s), s.begin ≤ a.1 ∧ a.1 ≤ a.2 ∧ s.begin + d ≤ a.2) ∧
      List.Chain' (fun a b : ℚ × ℚ => a.1 ≤ b.1 ∧ a.1 + d ≤ b.2 ∧ a.2 + d ≤ b.2)
        (pubs (loop W d fuel i s)) := by
  intro fuel
  induction fuel with
  | zero => intro i s _; simp [loop, pubs]
  | succ n ih =>
    intro i s hinv
    obtain ⟨i0, k0, hi0, hk0, hb⟩ := hinv
    unfold loop
    by_cases hok : W.ok i = true
    · rw [if_pos hok]
      dsimp only
      rcases iteration_pub_cases W d i s with ⟨hp, hbeg, hcalls, _⟩ | ⟨k, hp, _, hg, hk, hbeg, hcalls, _⟩
      · have hrest := ih (i + 1) (iteration W d i s).post
          ⟨i0, k0, by omega, by omega, by rw [hbeg, hb]⟩
        unfold pubs at hrest ⊢
        rw [List.filterMap_cons_none hp]
        rw [hbeg] at hrest
        exact hrest
      · have hrest := ih (i + 1) (iteration W d i s).post
          ⟨i, k, by omega, by omega, hbeg⟩
        unfold pubs at hrest ⊢
        rw [List.filterMap_cons_some hp]
        rw [hbeg] at hrest
        obtain ⟨hall, hchain⟩ := hrest
        have h1 : s.begin ≤ W.now i s.calls := by
          rw [hb]; exact hmono _ _ _ _ hi0 hk0
        have h2 : W.now i s.calls ≤ W.now i (s.calls + 1) :=
          hmono _ _ _ _ le_rfl (by omega)
        have h3 : W.now i (s.calls + 1) ≤ W.now i k :=
          hmono _ _ _ _ le_rfl (by omega)
        constructor
        · intro a ha
          rcases List.mem_cons.mp ha with ha | ha
          · subst ha
            exact ⟨h1, h2, hg⟩
          · obtain ⟨e1, e2, e3⟩ := hall a ha
            exact ⟨by linarith, e2, by linarith⟩
        · rw [List.chain'_cons']
          refine ⟨?_, hchain⟩
          intro b hb'
          have hbm := List.mem_of_mem_head? hb'
          obtain ⟨e1, e2, e3⟩ := hall b hbm
          exact ⟨by dsimp only; linarith, by dsimp only; linarith, by dsimp only; linarith⟩
    · rw [if_neg hok]
      simp [pubs]

theorem published_cons (st : Step) (tr : List Step) :
    published (st :: tr) = st.out ++ published tr := by
  simp [published]

/-- The stamps paired with the decision instants are the stamps of the
published primary messages. -/
theorem loop_stamps (W : World) (d : ℚ) :
    ∀ (fuel i : Nat) (s : LoopState),
      (pubs (loop W d fuel i s)).map Prod.fst = dataStamps (loop W d fuel i s) := by
  intro fuel
  induction fuel with
  | zero => intro i s; simp [loop, pubs, dataStamps, published]
  | succ n ih =>
    intro i s
    unfold loop
    by_cases hok : W.ok i = true
    · rw [if_pos hok]
      dsimp only
      have hrest := ih (i + 1) (iteration W d i s).post
      unfold pubs dataStamps at hrest ⊢
      rw [published_cons, List.filterMap_append, ← hrest]
      rcases iteration_pub_cases W d i s with ⟨hp, _, _, hout⟩ | ⟨k, hp, _, _, _, _, _, hout⟩
      · rw [List.filterMap_cons_none hp, hout]
        rfl
      · rw [List.filterMap_cons_some hp, hout]
        rfl
    · rw [if_neg hok]
      simp [pubs, dataStamps, published]

/-- Each iteration enters with the state the previous one left. -/
theorem loop_chain (W : World) (d : ℚ) :
    ∀ (fuel i : Nat) (s : LoopState),
      (∀ st ∈ (loop W d fuel i s).head?, st.pre = s) ∧
      List.Chain' (fun a b : Step => b.pre = a.post) (loop W d fuel i s) := by
  intro fuel
  induction fuel with
  | zero => intro i s; simp [loop]
  | succ n ih =>
    intro i s
    unfold loop
    by_cases hok : W.ok i = true
    · rw [if_pos hok]
      dsimp only
      obtain ⟨hhead, hchain⟩ := ih (i + 1) (iteration W d i s).post
      refine ⟨?_, ?_⟩
      · intro st hst
        simp only [List.head?_cons, Option.mem_def, Option.some.injEq] at hst
        rw [← hst, iteration_pre]
      · rw [List.chain'_cons']
        exact ⟨hhead, hchain⟩
    · rw [if_neg hok]
      simp

/-- An iteration publishes a primary message exactly when it has a stamp and a
decision instant; then the decision instant is the clock value compared on line
178, at least `d` past the anchor, and the anchor is reset to the value of a
later clock call; otherwise the anchor is unchanged. -/
theorem iteration_anchor (W : World) (d : ℚ) (i : Nat) (s : LoopState) :
    ((iteration W d i s).publishedData ↔ (iteration W d i s).pub.isSome = true) ∧
    ((iteration W d i s).post.begin ≠ s.begin → (iteration W d i s).publishedData) ∧
    ((iteration W d i s).publishedData →
      ∃ stamp t k, (iteration W d i s).pub = some (stamp, t) ∧
        (iteration W d i s).compared = some t ∧ t = W.now i (s.calls + 1) ∧
        s.begin + d ≤ t ∧ s.calls + 1 < k ∧
        (iteration W d i s).post.begin = W.now i k) := by
  rcases iteration_pub_cases W d i s with ⟨hp, hbeg, _, hout⟩ | ⟨k, hp, hcmp, hg, hk, hbeg, _, hout⟩
  · have hno : ¬ (iteration W d i s).publishedData := by
      rintro ⟨m, hm⟩
      rw [hout] at hm
      simp at hm
    refine ⟨?_, ?_, ?_⟩
    · rw [hp]; simp [hno]
    · intro h; exact absurd hbeg h
    · intro h; exact absurd h hno
  · have hyes : (iteration W d i s).publishedData := by
      have hmem : W.now i s.calls ∈ (iteration W d i s).out.filterMap Msg.dataStamp := by
        rw [hout]; simp
      obtain ⟨msg, hmsg, hst⟩ := List.mem_filterMap.mp hmem
      cases msg with
      | data m => exact ⟨m, hmsg⟩
      | mag m => simp [Msg.dataStamp] at hst
      | euler m => simp [Msg.dataStamp] at hst
    refine ⟨?_, fun _ => hyes, fun _ => ⟨_, _, k, hp, hcmp, rfl, hg, hk, hbeg⟩⟩
    rw [hp]; simp [hyes]

theorem update_start_anchor (self : I2cImu) (W : World) :
    ∃ i0 k0, i0 ≤ 1 ∧
      k0 ≤ ({ self := self, begin := W.now 0 0, calls := 1 } : LoopState).calls ∧
      ({ self := self, begin := W.now 0 0, calls := 1 } : LoopState).begin = W.now i0 k0 :=
  ⟨0, 0, by omega, Nat.zero_le _, rfl⟩

theorem jumpWorld_clockMonotone : jumpWorld.clockMonotone := by
  intro i k i' k' _ hk
  simp only [jumpWorld]
  split_ifs <;> first | omega | norm_num

theorem steadyWorld_clockMonotone (t0 δ : ℚ) (hδ : 0 ≤ δ) :
    (steadyWorld t0 δ).clockMonotone := by
  intro i k i' k' hi _
  simp only [steadyWorld]
  have h : (i : ℚ) ≤ (i' : ℚ) := by exact_mod_cast hi
  nlinarith

theorem dataStamps_cons (st : Step) (tr : List Step) :
    dataStamps (st :: tr) = st.out.filterMap Msg.dataStamp ++ dataStamps tr := by
  simp [dataStamps, published_cons]

theorem magStamps_cons (st : Step) (tr : List Step) :
    magStamps (st :: tr) = st.out.filterMap Msg.magStamp ++ magStamps tr := by
  simp [magStamps, published_cons]

theorem eulerCount_cons (st : Step) (tr : List Step) :
    eulerCount (st :: tr) = (st.out.filter Msg.isEuler).length + eulerCount tr := by
  simp [eulerCount, published_cons]

/-- The loop body when the read succeeds with a valid compass, both optional
publishers are advertised and every clock call of the iteration returns `t`:
either all three messages are published, stamped `t`, and the anchor becomes
`t`; or nothing is published and the anchor stays. -/
theorem steady_iteration (W : World) (d t : ℚ) (i : Nat) (s : LoopState)
    (imuData : RTIMU_DATA) (hread : W.IMURead i = some imuData)
    (hvalid : imuData.compassValid = true)
    (hmag : s.self.magnetometer_pub_.isSome = true)
    (heul : s.self.euler_pub_.isSome = true) (hclock : ∀ k, W.now i k = t) :
    (s.begin + d ≤ t →
      (∃ m g v, (iteration W d i s).out = [Msg.data m, Msg.mag g, Msg.euler v] ∧
        m.header.stamp = t ∧ g.header.stamp = t) ∧
      (iteration W d i s).post.begin = t) ∧
    (¬ s.begin + d ≤ t →
      (iteration W d i s).out = [] ∧ (iteration W d i s).post.begin = s.begin) := by
  unfold iteration
  simp only [hread, hclock, hvalid, hmag, heul, Bool.and_self, if_true]
  constructor
  · intro h
    have hg : t - s.begin ≥ d := by linarith
    rw [if_pos hg]
    exact ⟨⟨_, _, _, rfl, rfl, rfl⟩, rfl⟩
  · intro h
    have hg : ¬ t - s.begin ≥ d := by
      intro hg; apply h; linarith
    rw [if_neg hg]
    exact ⟨rfl, rfl⟩

/-- The loop in the steady scenario: every read succeeds with a valid compass,
both optional publishers are advertised, the publish interval is 0.1 s and the
clock shows `t0 + i * δ` throughout iteration `i`, with `δ = 0.1 / m`. Started
`r < m` iterations after the anchor was last set, `fuel` iterations publish
`(r + fuel) / m` primary messages, each with a magnetic-field message of the
same stamp and a Euler message. -/
theorem steady_loop (W : World) (t0 : ℚ) (m : Nat) (hm : 0 < m)
    (hok : ∀ i, W.ok i = true)
    (hread : ∀ i, ∃ imuData, W.IMURead i = some imuData ∧ imuData.compassValid = true)
    (hclock : ∀ i k, W.now i k = t0 + i * (1 / (10 * m))) :
    ∀ (fuel i r : Nat) (s : LoopState), r < m →
      s.begin = t0 + ((i : ℚ) - 1 - r) * (1 / (10 * m)) →
      s.self.magnetometer_pub_.isSome = true → s.self.euler_pub_.isSome = true →
      (loop W (1 / 10) fuel i s).length = fuel ∧
      (dataStamps (loop W (1 / 10) fuel i s)).length = (r + fuel) / m ∧
      magStamps (loop W (1 / 10) fuel i s) = dataStamps (loop W (1 / 10) fuel i s) ∧
      eulerCount (loop W (1 / 10) fuel i s) = (dataStamps (loop W (1 / 10) fuel i s)).length ∧
      (∀ st ∈ loop W (1 / 10) fuel i s, st.out = [] ∨
        ∃ a g v, st.out = [Msg.data a, Msg.mag g, Msg.euler v] ∧
          a.header.stamp = t0 + st.iter * (1 / (10 * m)) ∧
          g.header.stamp = t0 + st.iter * (1 / (10 * m))) := by
  have hmq : (0 : ℚ) < m := by exact_mod_cast hm
  have hδ : (0 : ℚ) < 1 / (10 * m) := by positivity
  have hδm : (m : ℚ) * (1 / (10 * m)) = 1 / 10 := by
    field_simp
    ring
  intro fuel
  induction fuel with
  | zero =>
    intro i r s hr _ _ _
    simp [loop, dataStamps, magStamps, eulerCount, published, Nat.div_eq_of_lt hr]
  | succ n ih =>
    intro i r s hr hbeg hmag heul
    obtain ⟨imuData, hrd, hvalid⟩ := hread i
    obtain ⟨hyes, hno⟩ := steady_iteration W (1 / 10) (t0 + i * (1 / (10 * m))) i s imuData
      hrd hvalid hmag heul (hclock i)
    obtain ⟨hpm, hpe, _⟩ := sameConfig_fields (iteration_sameConfig W (1 / 10) i s)
    have hmag' : (iteration W (1 / 10) i s).post.self.magnetometer_pub_.isSome = true := by
      rw [hpm]; exact hmag
    have heul' : (iteration W (1 / 10) i s).post.self.euler_pub_.isSome = true := by
      rw [hpe]; exact heul
    unfold loop
    rw [if_pos (hok i)]
    dsimp only
    rw [dataStamps_cons, magStamps_cons, eulerCount_cons, List.length_cons]
    by_cases hle : m ≤ r + 1
    · have hrm : r + 1 = m := by omega
      have hcmp : s.begin + 1 / 10 ≤ t0 + i * (1 / (10 * m)) := by
        have hcast : ((r : ℚ) + 1) = m := by exact_mod_cast hrm
        rw [hbeg, ← hδm, ← hcast]
        apply le_of_eq
        ring
      obtain ⟨⟨a, g, v, hout, hsa, hsg⟩, hpost⟩ := hyes hcmp
      have hpost' : (iteration W (1 / 10) i s).post.begin =
          t0 + (((i + 1 : ℕ) : ℚ) - 1 - (0 : ℕ)) * (1 / (10 * m)) := by
        rw [hpost]; push_cast; ring
      obtain ⟨h1, h2, h3, h4, h5⟩ :=
        ih (i + 1) 0 (iteration W (1 / 10) i s).post hm hpost' hmag' heul'
      rw [h1, h3, h4, hout]
      refine ⟨rfl, ?_, ?_, ?_, ?_⟩
      · simp only [List.filterMap_cons, Msg.dataStamp, List.filterMap_nil, List.cons_append,
          List.nil_append, List.length_cons, h2]
        rw [show r + (n + 1) = m + n by omega, Nat.add_div_left _ hm, Nat.zero_add]
      · simp only [List.filterMap_cons, Msg.dataStamp, Msg.magStamp, List.filterMap_nil,
          List.cons_append, List.nil_append, hsa, hsg]
      · simp [Msg.isEuler, Msg.dataStamp, Nat.add_comm]
      · intro st hst
        rcases List.mem_cons.mp hst with hst | hst
        · subst hst
          right
          rw [iteration_iter]
          exact ⟨a, g, v, hout, hsa, hsg⟩
        · exact h5 st hst
    · have hr' : r + 1 < m := by omega
      have hcmp : ¬ s.begin + 1 / 10 ≤ t0 + i * (1 / (10 * m)) := by
        have hcast : ((r : ℚ) + 1) + 1 ≤ m := by exact_mod_cast hr'
        rw [hbeg, ← hδm]
        intro hcon
        have : (m : ℚ) * (1 / (10 * m)) ≤ ((r : ℚ) + 1) * (1 / (10 * m)) := by linarith
        have h2 := le_of_mul_le_mul_right this hδ
        linarith
      obtain ⟨hout, hpost⟩ := hno hcmp
      have hpost' : (iteration W (1 / 10) i s).post.begin =
          t0 + (((i + 1 : ℕ) : ℚ) - 1 - ((r + 1 : ℕ) : ℚ)) * (1 / (10 * m)) := by
        rw [hpost, hbeg]; push_cast; ring
      obtain ⟨h1, h2, h3, h4, h5⟩ :=
        ih (i + 1) (r + 1) (iteration W (1 / 10) i s).post hr' hpost' hmag' heul'
      rw [h1, h3, h4, hout]
      refine ⟨rfl, ?_, rfl, ?_, ?_⟩
      · simp only [List.filterMap_nil, List.nil_append, h2]
        rw [show r + 1 + n = r + (n + 1) by omega]
      · simp
      · intro st hst
        rcases List.mem_cons.mp hst with hst | hst
        · subst hst
          left
          exact hout
        · exact h5 st hst

/-! ## The claims -/

/-- C1, as the code has it. Let `d` be the duration `ros::Duration(1.0/R)` of
line 151: the period `1/R` rounded to the nearest nanosecond, so within half a
nanosecond of it. For a rate `R > 0` whose period fits a `ros::Duration` and a
non-decreasing clock, in every run of `update`: the header stamps of
consecutively published primary messages do not decrease, and the later of two
consecutive publications is decided (line 178) at a clock value at least `d`
after the stamp of the earlier one; when in each publishing iteration the stamp
(line 160) equals that decision value, consecutive stamps are at least `d`
apart. -/
theorem stamp_spacing (self : I2cImu) (W : World) (fuel : Nat)
    (hR : 0 < self.rate_) (_hfit : 1 / self.rate_ ≤ 2147483647) (hmono : W.clockMonotone) :
    (pubs (self.update W fuel)).map Prod.fst = dataStamps (self.update W fuel) ∧
    List.Chain' (fun a b : ℚ => a ≤ b) (dataStamps (self.update W fuel)) ∧
    List.Chain' (fun a b : ℚ × ℚ => a.1 + Duration (1 / self.rate_) ≤ b.2)
      (pubs (self.update W fuel)) ∧
    ((∀ a ∈ pubs (self.update W fuel), a.1 = a.2) →
      List.Chain' (fun a b : ℚ => a + Duration (1 / self.rate_) ≤ b)
        (dataStamps (self.update W fuel))) ∧
    (1 / self.rate_ - 1 / 2000000000 < Duration (1 / self.rate_) ∧
      Duration (1 / self.rate_) ≤ 1 / self.rate_ + 1 / 2000000000) := by
  have hd : (0 : ℚ) ≤ Duration (1 / self.rate_) :=
    Duration_nonneg _ (le_of_lt (one_div_pos.mpr hR))
  obtain ⟨_, hchain⟩ := loop_pubs W (Duration (1 / self.rate_)) hd hmono fuel 1
    { self := self, begin := W.now 0 0, calls := 1 } (update_start_anchor self W)
  have hst := loop_stamps W (Duration (1 / self.rate_)) fuel 1
    { self := self, begin := W.now 0 0, calls := 1 }
  rw [update_eq]
  refine ⟨hst, ?_, hchain.imp (fun _ _ h => h.2.1), ?_, Duration_close _⟩
  · rw [← hst, List.chain'_map]
    exact hchain.imp (fun _ _ h => h.1)
  · intro heq
    rw [← hst, List.chain'_map]
    rw [List.Chain'.iff_mem] at hchain ⊢
    refine hchain.imp ?_
    intro a b h
    refine ⟨h.1, h.2.1, ?_⟩
    rw [heq b h.2.1]
    exact h.2.2.2.1

/-- Witness for C1 as the code has it: three iterations at 3 Hz under a clock
that advances by 333333333 ns per iteration; the stamps are that far apart. -/
theorem stamp_spacing_witness :
    0 < thirdNode.rate_ ∧ 1 / thirdNode.rate_ ≤ 2147483647 ∧
    (steadyWorld 0 thirdStep).clockMonotone ∧
    Duration (1 / thirdNode.rate_) = thirdStep ∧
    pubs (thirdNode.update (steadyWorld 0 thirdStep) 3) =
      [(thirdStep, thirdStep), (2 * thirdStep, 2 * thirdStep), (3 * thirdStep, 3 * thirdStep)] ∧
    List.Chain' (fun a b : ℚ => a + Duration (1 / thirdNode.rate_) ≤ b)
      (dataStamps (thirdNode.update (steadyWorld 0 thirdStep) 3)) :=
  have hR : 0 < thirdNode.rate_ := by decide!
  have hfit : 1 / thirdNode.rate_ ≤ 2147483647 := by decide!
  have hm := steadyWorld_clockMonotone 0 thirdStep (by decide!)
  have hp : pubs (thirdNode.update (steadyWorld 0 thirdStep) 3) =
      [(thirdStep, thirdStep), (2 * thirdStep, 2 * thirdStep), (3 * thirdStep, 3 * thirdStep)] := by
    decide!
  ⟨hR, hfit, hm, by decide!, hp,
    (stamp_spacing thirdNode (steadyWorld 0 thirdStep) 3 hR hfit hm).2.2.2.1
      (by rw [hp]; simp)⟩

/-- C1, as stated, fails, in two ways. At 1 Hz, under the non-decreasing clock
of `jumpWorld`, the first two iterations both publish: the first is stamped and
decided at `1`, the second is stamped at `1.9` and decided at `2`, so the two
header stamps are `0.9` apart, less than `1/R = 1`. At 3 Hz, under a clock that
advances by 333333333 ns per iteration, every iteration publishes, stamped at
its decision instant, and the stamps are 333333333 ns apart, less than `1/3` s. -/
theorem stamp_spacing_counterexample :
    (0 < slowNode.rate_ ∧ jumpWorld.clockMonotone ∧
      pubs (slowNode.update jumpWorld 2) = [(1, 1), (19 / 10, 2)] ∧
      dataStamps (slowNode.update jumpWorld 2) = [1, 19 / 10] ∧
      ¬ List.Chain' (fun a b : ℚ => a + 1 / slowNode.rate_ ≤ b)
        (dataStamps (slowNode.update jumpWorld 2))) ∧
    (0 < thirdNode.rate_ ∧ (steadyWorld 0 thirdStep).clockMonotone ∧
      dataStamps (thirdNode.update (steadyWorld 0 thirdStep) 3) =
        [thirdStep, 2 * thirdStep, 3 * thirdStep] ∧
      ¬ List.Chain' (fun a b : ℚ => a + 1 / thirdNode.rate_ ≤ b)
        (dataStamps (thirdNode.update (steadyWorld 0 thirdStep) 3))) := by
  have hs : dataStamps (slowNode.update jumpWorld 2) = [1, 19 / 10] := by decide!
  have ht : dataStamps (thirdNode.update (steadyWorld 0 thirdStep) 3) =
      [thirdStep, 2 * thirdStep, 3 * thirdStep] := by decide!
  refine ⟨⟨by decide!, jumpWorld_clockMonotone, by decide!, hs, ?_⟩,
    ⟨by decide!, steadyWorld_clockMonotone 0 thirdStep (by decide!), ht, ?_⟩⟩
  · rw [hs]
    simp [slowNode]
    norm_num
  · rw [ht]
    simp [thirdNode, thirdStep]
    norm_num

/-- C3. For each of the three covariance parameters, on a constructed node: a
parameter supplied with exactly nine elements is the corresponding field of the
primary message, element for element in the same order; a parameter that is
absent or whose length is not nine leaves all nine elements of the field zero. -/
theorem covariance_loading (p : Params) (createIMU : Option RTIMU) (self : I2cImu)
    (hctor : I2cImu.I2cImu p createIMU = .ok self) :
    ((∀ v, p.orientation_covariance = some v → v.length = 9 →
        self.imu_msg.orientation_covariance = v) ∧
      ((∀ v, p.orientation_covariance = some v → v.length ≠ 9) →
        self.imu_msg.orientation_covariance = List.replicate 9 0)) ∧
    ((∀ v, p.angular_velocity_covariance = some v → v.length = 9 →
        self.imu_msg.angular_velocity_covariance = v) ∧
      ((∀ v, p.angular_velocity_covariance = some v → v.length ≠ 9) →
        self.imu_msg.angular_velocity_covariance = List.replicate 9 0)) ∧
    ((∀ v, p.linear_acceleration_covariance = some v → v.length = 9 →
        self.imu_msg.linear_acceleration_covariance = v) ∧
      ((∀ v, p.linear_acceleration_covariance = some v → v.length ≠ 9) →
        self.imu_msg.linear_acceleration_covariance = List.replicate 9 0)) := by
  obtain ⟨_, _, _, _, _, _, _, _, _, _, _, ho, ha, hl⟩ := ctor_ok p createIMU self hctor
  rw [ho, ha, hl]
  refine ⟨⟨?_, ?_⟩, ⟨?_, ?_⟩, ⟨?_, ?_⟩⟩
  · intro v hv h9; rw [hv]; exact loadCovariance_eq v h9
  · intro h; exact loadCovariance_default _ _ h
  · intro v hv h9; rw [hv]; exact loadCovariance_eq v h9
  · intro h; exact loadCovariance_default _ _ h
  · intro v hv h9; rw [hv]; exact loadCovariance_eq v h9
  · intro h; exact loadCovariance_default _ _ h

/-- Witness for C3: `sampleParams` supplies nine elements for the orientation,
two for the angular velocity and nothing for the linear acceleration. -/
theorem covariance_loading_witness :
    I2cImu.I2cImu sampleParams (some sampleIMU) = .ok sampleNode ∧
    sampleNode.imu_msg.orientation_covariance = [1, 0, 0, 0, 2, 0, 0, 0, 3] ∧
    sampleNode.imu_msg.angular_velocity_covariance = List.replicate 9 0 ∧
    sampleNode.imu_msg.linear_acceleration_covariance = List.replicate 9 0 :=
  have h := covariance_loading sampleParams (some sampleIMU) sampleNode sampleNode_ok
  ⟨sampleNode_ok, h.1.1 _ rfl rfl,
    h.2.1.2 (fun v hv => by cases hv; decide),
    h.2.2.2 (fun v hv => by cases hv)⟩

/-- C4. After a successful read the buffered primary message has orientation
`(qx, qy, qz, qscalar)`, angular velocity `(gx, -gy, -gz)` and linear
acceleration `(-ax*9.80665, ay*9.80665, az*9.80665)`, for every sample and every
object (so for every magnetic declination); a primary message published in that
iteration is this buffered message. -/
theorem primary_reading_conversion (W : World) (d : ℚ) (i : Nat) (s : LoopState)
    (imuData : RTIMU_DATA) (hread : W.IMURead i = some imuData) :
    (iteration W d i s).post.self.imu_msg.orientation =
      { x := imuData.fusionQPose.x, y := imuData.fusionQPose.y,
        z := imuData.fusionQPose.z, w := imuData.fusionQPose.scalar } ∧
    (iteration W d i s).post.self.imu_msg.angular_velocity =
      { x := imuData.gyro.x, y := -imuData.gyro.y, z := -imuData.gyro.z } ∧
    (iteration W d i s).post.self.imu_msg.linear_acceleration =
      { x := -imuData.accel.x * 9.80665, y := imuData.accel.y * 9.80665,
        z := imuData.accel.z * 9.80665 } ∧
    (∀ m, Msg.data m ∈ (iteration W d i s).out →
      m = (iteration W d i s).post.self.imu_msg) := by
  refine ⟨?_, ?_, ?_, iteration_data_mem W d i s⟩ <;>
    (rw [iteration_imu_msg W d i s imuData hread]; try rfl)

/-- Witness for C4: the first iteration of the steady world. -/
theorem primary_reading_conversion_witness :
    (steadyWorld 0 1).IMURead 1 = some sampleData ∧
    (iteration (steadyWorld 0 1) 1 1 sampleStart).post.self.imu_msg.angular_velocity =
      { x := 1, y := -2, z := -3 } ∧
    (iteration (steadyWorld 0 1) 1 1 sampleStart).post.self.imu_msg.linear_acceleration =
      { x := -1 * 9.80665, y := 0 * 9.80665, z := 1 * 9.80665 } :=
  have h := primary_reading_conversion (steadyWorld 0 1) 1 1 sampleStart sampleData rfl
  ⟨rfl, h.2.1, h.2.2.1⟩

/-- C5. Every Euler message published by an iteration is `(px, py, -pz - d)`
for the fusion pose `(px, py, pz)` of that iteration's sample and the object's
declination `d`; on a node built by the constructor `d` is the
`magnetic_declination` parameter, and when that parameter is absent the message
is `(px, py, -pz)`. -/
theorem euler_output (W : World) (d : ℚ) (i : Nat) (s : LoopState) (imuData : RTIMU_DATA)
    (v : Vector3) (hread : W.IMURead i = some imuData)
    (hv : Msg.euler v ∈ (iteration W d i s).out) :
    v = { x := imuData.fusionPose.x, y := imuData.fusionPose.y,
          z := -imuData.fusionPose.z - s.self.declination_radians_ } ∧
    (s.self.declination_radians_ = 0 →
      v = { x := imuData.fusionPose.x, y := imuData.fusionPose.y,
            z := -imuData.fusionPose.z }) ∧
    (∀ (p : Params) (createIMU : Option RTIMU) (self : I2cImu),
      I2cImu.I2cImu p createIMU = .ok self → self.sameConfig s.self →
        v = { x := imuData.fusionPose.x, y := imuData.fusionPose.y,
              z := -imuData.fusionPose.z - p.magnetic_declination.getD 0 } ∧
        (p.magnetic_declination = none →
          v = { x := imuData.fusionPose.x, y := imuData.fusionPose.y,
                z := -imuData.fusionPose.z })) := by
  have hv' := (iteration_secondary_mem W d i s imuData hread).1 v hv
  refine ⟨hv', ?_, ?_⟩
  · intro h0
    rw [hv', h0, sub_zero]
  · intro p createIMU self hctor hcfg
    obtain ⟨_, _, _, _, _, _, _, _, _, hdecl, _⟩ := ctor_ok p createIMU self hctor
    obtain ⟨_, _, _, _, hd⟩ := sameConfig_fields hcfg
    rw [hd, hdecl] at hv'
    refine ⟨hv', ?_⟩
    intro hnone
    rw [hv', hnone]
    simp

/-- Witness for C5: the first iteration of a steady world publishes the Euler
message `(1, 2, -3 - 0)` for the pose `(1, 2, 3)` and the default declination. -/
theorem euler_output_witness :
    (steadyWorld 0 1).IMURead 1 = some sampleData ∧
    Msg.euler { x := 1, y := 2, z := -3 - 0 } ∈
      (iteration (steadyWorld 0 1) 1 1 sampleStart).out ∧
    (({ x := 1, y := 2, z := -3 - 0 } : Vector3) = { x := 1, y := 2, z := -3 }) :=
  have hmem : Msg.euler { x := 1, y := 2, z := -3 - 0 } ∈
      (iteration (steadyWorld 0 1) 1 1 sampleStart).out := by
    simp [iteration, steadyWorld, sampleStart, sampleNode, sampleData]
  ⟨rfl, hmem,
    (euler_output (steadyWorld 0 1) 1 1 sampleStart sampleData _ rfl hmem).2.1 rfl⟩

/-- C6. Every magnetic-field message published by an iteration has the
components `(mx/1000000, my/1000000, mz/1000000)` of that iteration's compass
vector `(mx, my, mz)`, with no sign change, and carries the object's frame id;
on a node built by the constructor that is the `frame_id` parameter (default
`imu_link`). -/
theorem magnetic_field_conversion (W : World) (d : ℚ) (i : Nat) (s : LoopState)
    (imuData : RTIMU_DATA) (m : MagneticField) (hread : W.IMURead i = some imuData)
    (hm : Msg.mag m ∈ (iteration W d i s).out) :
    m.magnetic_field = { x := imuData.compass.x / 1000000, y := imuData.compass.y / 1000000,
                         z := imuData.compass.z / 1000000 } ∧
    m.header.frame_id = s.self.imu_frame_id_ ∧
    (∀ (p : Params) (createIMU : Option RTIMU) (self : I2cImu),
      I2cImu.I2cImu p createIMU = .ok self → self.sameConfig s.self →
        m.header.frame_id = p.frame_id.getD "imu_link") := by
  have hm' := (iteration_secondary_mem W d i s imuData hread).2 m hm
  refine ⟨by rw [hm']; rfl, by rw [hm'], ?_⟩
  intro p createIMU self hctor hcfg
  obtain ⟨_, _, _, _, _, _, hframe, _⟩ := ctor_ok p createIMU self hctor
  obtain ⟨_, _, hf, _⟩ := sameConfig_fields hcfg
  rw [hm', ← hframe, ← hf]

/-- Witness for C6: the first iteration of a steady world publishes the compass
vector `(20, -5, 40)` divided by a million, in frame `imu_link`. -/
theorem magnetic_field_conversion_witness :
    (steadyWorld 0 1).IMURead 1 = some sampleData ∧
    Msg.mag sampleMag ∈ (iteration (steadyWorld 0 1) 1 1 sampleStart).out ∧
    sampleMag.header.frame_id = sampleStart.self.imu_frame_id_ :=
  have hmem : Msg.mag sampleMag ∈ (iteration (steadyWorld 0 1) 1 1 sampleStart).out := by
    simp [iteration, steadyWorld, sampleStart, sampleNode, sampleData, sampleMag, uT_2_T]
  ⟨rfl, hmem,
    (magnetic_field_conversion (steadyWorld 0 1) 1 1 sampleStart sampleData _ rfl hmem).2.1⟩

/-- C7, as the code has it. On a node constructed with `rate_hz = 10` and both
optional outputs enabled, when every read succeeds with `compassValid` true and
the clock shows `t0 + i * δ` throughout iteration `i` for a step `δ = 0.1 / m`
(`m` a positive integer): the `10 * m` iterations of the first second publish
exactly 10 primary, 10 magnetic-field and 10 Euler messages; the stamps of the
primary and of the magnetic-field messages do not decrease; and each iteration
publishes either nothing or the three messages together, stamped with the
clock value of that iteration. -/
theorem steady_scenario (p : Params) (createIMU : Option RTIMU) (self : I2cImu) (W : World)
    (t0 : ℚ) (m : Nat)
    (hctor : I2cImu.I2cImu p createIMU = .ok self) (hrate : p.rate_hz = some 10)
    (hmagp : p.publish_magnetometer = some true) (heulp : p.publish_euler = some true)
    (hm : 0 < m) (hok : ∀ i, W.ok i = true)
    (hread : ∀ i, ∃ imuData, W.IMURead i = some imuData ∧ imuData.compassValid = true)
    (hclock : ∀ i k, W.now i k = t0 + i * (1 / (10 * m))) :
    (self.update W (10 * m)).length = 10 * m ∧
    (dataStamps (self.update W (10 * m))).length = 10 ∧
    (magStamps (self.update W (10 * m))).length = 10 ∧
    eulerCount (self.update W (10 * m)) = 10 ∧
    List.Chain' (fun a b : ℚ => a ≤ b) (dataStamps (self.update W (10 * m))) ∧
    List.Chain' (fun a b : ℚ => a ≤ b) (magStamps (self.update W (10 * m))) ∧
    (∀ st ∈ self.update W (10 * m), st.out = [] ∨
      ∃ a g v, st.out = [Msg.data a, Msg.mag g, Msg.euler v] ∧
        a.header.stamp = t0 + st.iter * (1 / (10 * m)) ∧
        g.header.stamp = t0 + st.iter * (1 / (10 * m))) := by
  obtain ⟨_, _, _, _, _, _, _, hmag, heul, _, hr, _⟩ := ctor_ok p createIMU self hctor
  rw [hmagp] at hmag
  rw [heulp] at heul
  rw [hrate] at hr
  have hrate' : self.rate_ = 10 := hr
  have hupd : self.update W (10 * m) = loop W (1 / 10) (10 * m) 1
      { self := self, begin := W.now 0 0, calls := 1 } := by
    rw [update_eq, hrate', Duration_tenth]
  have hδ : (0 : ℚ) ≤ 1 / (10 * m) := by positivity
  have hmono : W.clockMonotone := by
    intro i k i' k' hi _
    rw [hclock, hclock]
    have h : (i : ℚ) ≤ (i' : ℚ) := by exact_mod_cast hi
    nlinarith
  have hbeg : ({ self := self, begin := W.now 0 0, calls := 1 } : LoopState).begin =
      t0 + (((1 : ℕ) : ℚ) - 1 - ((0 : ℕ) : ℚ)) * (1 / (10 * m)) := by
    show W.now 0 0 = _
    rw [hclock]; push_cast; ring
  obtain ⟨h1, h2, h3, h4, h5⟩ := steady_loop W t0 m hm hok hread hclock (10 * m) 1 0
    { self := self, begin := W.now 0 0, calls := 1 } hm hbeg hmag heul
  obtain ⟨_, hchain⟩ := loop_pubs W (1 / 10) (by norm_num) hmono (10 * m) 1
    { self := self, begin := W.now 0 0, calls := 1 } (update_start_anchor self W)
  have hst := loop_stamps W (1 / 10) (10 * m) 1
    { self := self, begin := W.now 0 0, calls := 1 }
  have hsorted : List.Chain' (fun a b : ℚ => a ≤ b)
      (dataStamps (loop W (1 / 10) (10 * m) 1
        { self := self, begin := W.now 0 0, calls := 1 })) := by
    rw [← hst, List.chain'_map]
    exact hchain.imp (fun _ _ h => h.1)
  have hten : (0 + 10 * m) / m = 10 := by
    rw [Nat.zero_add, Nat.mul_div_cancel _ hm]
  rw [hupd, h3, h4, h2, hten]
  exact ⟨h1, rfl, rfl, rfl, hsorted, hsorted, h5⟩

/-- Witness for C7 as the code has it: `sampleNode` under a clock advancing by
0.05 s per iteration, over 20 iterations. -/
theorem steady_scenario_witness :
    I2cImu.I2cImu sampleParams (some sampleIMU) = .ok sampleNode ∧
    sampleParams.rate_hz = some 10 ∧
    sampleParams.publish_magnetometer = some true ∧
    sampleParams.publish_euler = some true ∧
    (dataStamps (sampleNode.update (steadyWorld 0 (1 / (10 * ((2 : ℕ) : ℚ)))) (10 * 2))).length
      = 10 :=
  ⟨sampleNode_ok, rfl, rfl, rfl,
    (steady_scenario sampleParams (some sampleIMU) sampleNode
      (steadyWorld 0 (1 / (10 * ((2 : ℕ) : ℚ)))) 0 2 sampleNode_ok rfl rfl rfl (by decide)
      (fun _ => rfl) (fun _ => ⟨sampleData, rfl, rfl⟩) (fun _ _ => rfl)).2.1⟩

/-- C7, as stated, fails. With `rate_hz = 10`, every read succeeding with a
valid compass, both optional outputs enabled and a clock advancing by the fixed
step 0.06 s (at most 0.1 s) per iteration, the 16 iterations of the first second
(the 17th falls at 1.02 s) publish 8 messages of each kind, not 10: the comparison of line 178
succeeds in every second iteration only, 0.12 s apart. -/
theorem steady_scenario_counterexample :
    I2cImu.I2cImu sampleParams (some sampleIMU) = .ok sampleNode ∧
    sampleParams.rate_hz = some 10 ∧
    sampleParams.publish_magnetometer = some true ∧
    sampleParams.publish_euler = some true ∧
    ((0 : ℚ) < 3 / 50 ∧ (3 / 50 : ℚ) ≤ 1 / 10) ∧
    ((16 : ℚ) * (3 / 50) ≤ 1 ∧ 1 < (17 : ℚ) * (3 / 50)) ∧
    (dataStamps (sampleNode.update (steadyWorld 0 (3 / 50)) 16)).length = 8 ∧
    (magStamps (sampleNode.update (steadyWorld 0 (3 / 50)) 16)).length = 8 ∧
    eulerCount (sampleNode.update (steadyWorld 0 (3 / 50)) 16) = 8 ∧
    (dataStamps (sampleNode.update (steadyWorld 0 (3 / 50)) 17)).length = 8 := by
  refine ⟨sampleNode_ok, rfl, rfl, rfl, by norm_num, by norm_num, ?_, ?_, ?_, ?_⟩ <;> decide!

/-- C8. The constructor fails iff `settings_directory` is absent, or
`RTIMU::createIMU` returns no device, or `IMUInit` returns false; and when it
fails `main` ends with that failure: no loop iteration is entered and no message
is published. -/
theorem initialization_failure (p : Params) (createIMU : Option RTIMU) (W : World)
    (fuel : Nat) :
    ((∃ e, I2cImu.I2cImu p createIMU = .error e) ↔
      (p.settings_directory = none ∨ createIMU = none ∨
        ∃ imu, createIMU = some imu ∧ imu.IMUInit = false)) ∧
    (∀ e, I2cImu.I2cImu p createIMU = .error e →
      main p createIMU W fuel = .error e ∧
      iterationsOf (main p createIMU W fuel) = 0 ∧
      publishedBy (main p createIMU W fuel) = []) := by
  constructor
  · unfold I2cImu.I2cImu
    cases hd : p.settings_directory with
    | none => simp
    | some dir =>
      cases createIMU with
      | none => simp
      | some imu =>
        cases hi : imu.IMUInit <;> simp [hi]
  · intro e he
    unfold main
    rw [he]
    exact ⟨rfl, rfl, rfl⟩

/-- Witness for C8: without `settings_directory` the constructor fails and
`main` publishes nothing, whatever the world. -/
theorem initialization_failure_witness :
    I2cImu.I2cImu { sampleParams with settings_directory := none } (some sampleIMU) =
      .error .settingsDirectoryNotSet ∧
    publishedBy (main { sampleParams with settings_directory := none } (some sampleIMU)
      (steadyWorld 0 1) 5) = [] :=
  ⟨rfl, ((initialization_failure { sampleParams with settings_directory := none }
    (some sampleIMU) (steadyWorld 0 1) 5).2 _ rfl).2.2⟩

/-- C9. On a constructed node the rate is the `rate_hz` parameter when it is
supplied; otherwise, for the driver poll interval `p` (milliseconds), it is
`1.0 / (p / 1000.0)`, which is `1000 / p`, and the interval `1/rate_` that
`update` compares against is `p / 1000` seconds. (For `p = 0` the rate is `0`
here and infinite in IEEE arithmetic; the interval is `0` in both.) -/
theorem polling_rate (p : Params) (imu : RTIMU) (self : I2cImu) (W : World) (fuel : Nat)
    (hctor : I2cImu.I2cImu p (some imu) = .ok self) :
    (∀ r, p.rate_hz = some r → self.rate_ = r) ∧
    (p.rate_hz = none →
      self.rate_ = 1 / ((imu.IMUGetPollInterval : ℚ) / 1000) ∧
      self.rate_ = 1000 / (imu.IMUGetPollInterval : ℚ) ∧
      1 / self.rate_ = (imu.IMUGetPollInterval : ℚ) / 1000 ∧
      self.update W fuel =
        loop W ((imu.IMUGetPollInterval : ℚ) / 1000) fuel 1
          { self := self, begin := W.now 0 0, calls := 1 }) := by
  obtain ⟨_, imu', _, hc, _, _, _, _, _, _, hrate, _⟩ := ctor_ok p (some imu) self hctor
  cases hc
  constructor
  · intro r hr
    rw [hrate, hr]
    rfl
  · intro hnone
    rw [hnone] at hrate
    have h1 : self.rate_ = 1 / ((imu.IMUGetPollInterval : ℚ) / 1000) := hrate
    have h3 : 1 / self.rate_ = (imu.IMUGetPollInterval : ℚ) / 1000 := by
      rw [h1, one_div, one_div, inv_inv]
    refine ⟨h1, ?_, h3, ?_⟩
    · rw [h1, one_div, inv_div]
    · rw [update_eq, h3, Duration_millis]

/-- Witness for C9: without `rate_hz`, a 4 ms poll interval gives 250 Hz. -/
theorem polling_rate_witness :
    I2cImu.I2cImu { sampleParams with rate_hz := none } (some sampleIMU) =
      .ok { sampleNode with rate_ := 1 / ((4 : ℚ) / 1000) } ∧
    (1 / ((4 : ℚ) / 1000) = 1000 / ((4 : Int) : ℚ)) :=
  ⟨rfl, (polling_rate { sampleParams with rate_hz := none } sampleIMU
      { sampleNode with rate_ := 1 / ((4 : ℚ) / 1000) } (steadyWorld 0 1) 0 rfl).2 rfl |>.2.1⟩

/-- C10, as the code has it. Let `d` be the duration `ros::Duration(1.0/R)` of
line 151: the period `1/R` rounded to the nearest nanosecond, so within half a
nanosecond of it. For a rate `R > 0` whose period fits a `ros::Duration` and a
non-decreasing clock, in every run of `update`: the loop is entered with the
anchor read at the start and each iteration enters with the anchor the previous
one left; an iteration changes the anchor only if it publishes the primary
message, and then resets it to the value of a clock call made after the
decision; every publication is decided at a clock value at least `d` past the
anchor of that iteration; so every decision instant is at least `d` after the
start of `update`, and consecutive decision instants are at least `d` apart. -/
theorem anchor_invariant (self : I2cImu) (W : World) (fuel : Nat)
    (hR : 0 < self.rate_) (_hfit : 1 / self.rate_ ≤ 2147483647) (hmono : W.clockMonotone) :
    ((∀ st ∈ (self.update W fuel).head?, st.pre.begin = W.now 0 0) ∧
      List.Chain' (fun a b : Step => b.pre = a.post) (self.update W fuel)) ∧
    (∀ st ∈ self.update W fuel,
      (st.publishedData ↔ st.pub.isSome = true) ∧
      (st.post.begin ≠ st.pre.begin → st.publishedData) ∧
      (st.publishedData →
        ∃ stamp t k, st.pub = some (stamp, t) ∧ st.compared = some t ∧
          t = W.now st.iter (st.pre.calls + 1) ∧
          st.pre.begin + Duration (1 / self.rate_) ≤ t ∧ st.pre.calls + 1 < k ∧
          st.post.begin = W.now st.iter k)) ∧
    (∀ t ∈ decisions (self.update W fuel), W.now 0 0 + Duration (1 / self.rate_) ≤ t) ∧
    List.Chain' (fun a b : ℚ => a + Duration (1 / self.rate_) ≤ b)
      (decisions (self.update W fuel)) ∧
    (1 / self.rate_ - 1 / 2000000000 < Duration (1 / self.rate_) ∧
      Duration (1 / self.rate_) ≤ 1 / self.rate_ + 1 / 2000000000) := by
  have hd : (0 : ℚ) ≤ Duration (1 / self.rate_) :=
    Duration_nonneg _ (le_of_lt (one_div_pos.mpr hR))
  obtain ⟨hall, hchain⟩ := loop_pubs W (Duration (1 / self.rate_)) hd hmono fuel 1
    { self := self, begin := W.now 0 0, calls := 1 } (update_start_anchor self W)
  obtain ⟨hhead, hlink⟩ := loop_chain W (Duration (1 / self.rate_)) fuel 1
    { self := self, begin := W.now 0 0, calls := 1 }
  rw [update_eq]
  refine ⟨⟨?_, hlink⟩, ?_, ?_, ?_, Duration_close _⟩
  · intro st hst
    rw [hhead st hst]
  · intro st hst
    obtain ⟨hit, _, _, _⟩ := loop_mem W _ _ _ _ st hst
    have key := iteration_anchor W (Duration (1 / self.rate_)) st.iter st.pre
    rw [← hit] at key
    exact key
  · intro t ht
    unfold decisions at ht
    obtain ⟨a, ha, rfl⟩ := List.mem_map.mp ht
    exact (hall a ha).2.2
  · unfold decisions
    rw [List.chain'_map]
    exact hchain.imp (fun _ _ h => h.2.2)

/-- Witness for C10 as the code has it: two iterations at 1 Hz under the clock
of `jumpWorld`, deciding at the instants `1` and `2`. -/
theorem anchor_invariant_witness :
    0 < slowNode.rate_ ∧ 1 / slowNode.rate_ ≤ 2147483647 ∧ jumpWorld.clockMonotone ∧
    decisions (slowNode.update jumpWorld 2) = [1, 2] ∧
    List.Chain' (fun a b : ℚ => a + Duration (1 / slowNode.rate_) ≤ b)
      (decisions (slowNode.update jumpWorld 2)) :=
  have hR : 0 < slowNode.rate_ := by decide!
  have hfit : 1 / slowNode.rate_ ≤ 2147483647 := by decide!
  ⟨hR, hfit, jumpWorld_clockMonotone, by decide!,
    (anchor_invariant slowNode jumpWorld 2 hR hfit jumpWorld_clockMonotone).2.2.2.1⟩

/-- C10, as stated, fails. At 3 Hz the duration of line 151 is 333333333 ns.
Under a clock that starts at zero and advances by 333333333 ns per iteration
all three first iterations publish: the first decision comes 333333333 ns after
the start of `update` and consecutive decisions are 333333333 ns apart, less
than `1/R = 1/3` s each time. -/
theorem anchor_invariant_counterexample :
    0 < thirdNode.rate_ ∧ (steadyWorld 0 thirdStep).clockMonotone ∧
    (steadyWorld 0 thirdStep).now 0 0 = 0 ∧
    decisions (thirdNode.update (steadyWorld 0 thirdStep) 3) =
      [thirdStep, 2 * thirdStep, 3 * thirdStep] ∧
    ¬ ((steadyWorld 0 thirdStep).now 0 0 + 1 / thirdNode.rate_ ≤ thirdStep) ∧
    ¬ List.Chain' (fun a b : ℚ => a + 1 / thirdNode.rate_ ≤ b)
      (decisions (thirdNode.update (steadyWorld 0 thirdStep) 3)) := by
  have ht : decisions (thirdNode.update (steadyWorld 0 thirdStep) 3) =
      [thirdStep, 2 * thirdStep, 3 * thirdStep] := by decide!
  refine ⟨by decide!, steadyWorld_clockMonotone 0 thirdStep (by decide!), by decide!,
    ht, by decide!, ?_⟩
  rw [ht]
  simp [thirdNode, thirdStep]
  norm_num

end I2cImuNode
